import Mathlib

/-!
Verification development for the finrag-analyst repository.

The repository's `src/` tree contains the Next.js frontend
(`app/lib/api.ts`, `app/components/IngestionMonitor.tsx`,
`app/components/ChatWindow.tsx`, pages) together with the README and
Dockerfile.  The Python backend (`src/ingest.py`, `src/rag_pipeline.py`,
`src/vector_store.py`, `api/main.py`) is referenced by the README and by
the frontend but its code is not present; where a claim is decided by
that missing code, the corresponding definition is modelled from the
specification and marked `Modelled from the spec:` in its doc comment.

Numeric scores (similarity scores, the faithfulness score) are modelled
as rationals (`ℚ`): the algorithms in question are exact count/length
ratios and threshold comparisons, for which `ℚ` is a faithful model of
the float arithmetic actually performed on such small integers.
-/

namespace FinRag

/-! ## Progress events (`app/lib/api.ts`, type `ProgressEvent`)

The TypeScript type is
`type: "phase" | "step" | "ticker_start" | "ticker_done" | "system" |
"warning" | "done" | "error" | "heartbeat" | "__end__"` with optional
fields `step?`, `ticker?`, `status? : "started" | "done" | "error"`,
`message?`, `total_chunks?`, and an index signature
`[key: string]: unknown` admitting arbitrary further fields. -/

/-- Event-type tags admitted by the `type` field of `ProgressEvent` in
`app/lib/api.ts` (the string union on line 42), as a Boolean predicate
on strings. -/
def validEventType (s : String) : Bool :=
  s == "phase" || s == "step" || s == "ticker_start" || s == "ticker_done" ||
  s == "system" || s == "warning" || s == "done" || s == "error" ||
  s == "heartbeat" || s == "__end__"

/-- Status values admitted by the `status` field of `ProgressEvent`. -/
def validStatus (s : String) : Bool :=
  s == "started" || s == "done" || s == "error"

/-- Shallow embedding of the `ProgressEvent` payload of `app/lib/api.ts`:
the tag, the five declared optional fields, and `extra` modelling the
index signature `[key: string]: unknown` (extra keys mapped to their
printed form). -/
structure ProgressEvent where
  type : String
  step : Option String := none
  ticker : Option String := none
  status : Option String := none
  message : Option String := none
  total_chunks : Option Nat := none
  extra : List (String × String) := []
  deriving DecidableEq, Repr

/-- Terminal events: `streamIngestionProgress` closes the `EventSource`
exactly on these (`api.ts` line 18). -/
def isTerminal (e : ProgressEvent) : Bool :=
  e.type == "done" || e.type == "error"

/-! ## API client response handling (`app/lib/api.ts`)

Each client operation performs a `fetch`, then
`if (!res.ok) throw new Error(await res.text()); return res.json();`.
We model an HTTP response by its `ok` flag and raw body text, JSON
parsing by an arbitrary parse function supplied per operation, and a
thrown `Error` by the `Except.error` branch carrying the error message. -/

/-- Model of the `fetch` response as consumed by the client: the `ok`
flag and the body text (read either by `res.text()` or `res.json()`). -/
structure HttpResponse where
  ok : Bool
  body : String
  deriving DecidableEq, Repr

/-- Response handling of `startIngestion` (`api.ts` lines 3-11): on a
non-ok response throw an `Error` whose message is the body text,
otherwise return the parsed JSON body. -/
def startIngestion (parse : String → α) (res : HttpResponse) : Except String α :=
  if res.ok then Except.ok (parse res.body) else Except.error res.body

/-- Response handling of `queryRAG` (`api.ts` lines 24-32): same shape as
`startIngestion`. -/
def queryRAG (parse : String → α) (res : HttpResponse) : Except String α :=
  if res.ok then Except.ok (parse res.body) else Except.error res.body

/-- Response handling of `getMetrics` (`api.ts` lines 34-38): same shape
as `startIngestion`. -/
def getMetrics (parse : String → α) (res : HttpResponse) : Except String α :=
  if res.ok then Except.ok (parse res.body) else Except.error res.body

/-! ## The SSE consumer (`streamIngestionProgress`, `api.ts` lines 13-22)

`streamIngestionProgress` opens an `EventSource`; `onmessage` parses the
event, invokes the caller's callback, and closes the source when the
event type is `done` or `error`; `onerror` closes the source; the
returned function closes the source.  We model the consumer as a state
machine over the sequence of things that reach it: parsed messages,
transport errors (`onerror`), and invocations of the returned closer. -/

/-- One occurrence at the consumer: a parsed SSE message, a transport
error firing `onerror`, or the caller invoking the function returned by
`streamIngestionProgress`. -/
inductive ConsumerItem where
  | msg (e : ProgressEvent)
  | transportError
  | callerClose
  deriving DecidableEq, Repr

/-- Consumer state: whether the `EventSource` is still open, and the
events delivered to the callback so far (in order). -/
structure ConsumerState where
  isOpen : Bool
  delivered : List ProgressEvent
  deriving DecidableEq, Repr

/-- One step of the consumer of `streamIngestionProgress`: on a closed
source nothing happens; on an open source a message is delivered to the
callback and the source is closed when the message is terminal
(`api.ts` lines 15-19); `onerror` and the returned function close the
source (lines 20-21). -/
def consumerStep (st : ConsumerState) (it : ConsumerItem) : ConsumerState :=
  if st.isOpen then
    match it with
    | ConsumerItem.msg e =>
        { isOpen := !(isTerminal e), delivered := st.delivered ++ [e] }
    | ConsumerItem.transportError => { st with isOpen := false }
    | ConsumerItem.callerClose => { st with isOpen := false }
  else st

/-- Run the consumer from the freshly-opened state over a sequence of
items. -/
def runConsumer (items : List ConsumerItem) : ConsumerState :=
  items.foldl consumerStep { isOpen := true, delivered := [] }

/-- Events delivered to the callback when the transport carries exactly
the producer's event list. -/
def deliveredEvents (evs : List ProgressEvent) : List ProgressEvent :=
  (runConsumer (evs.map ConsumerItem.msg)).delivered

/-- Closed-form of the consumer's deliveries: everything up to and
including the first terminal event. -/
def consume : List ProgressEvent → List ProgressEvent
  | [] => []
  | e :: es => if isTerminal e then [e] else e :: consume es

/-! ## Job submission (backend `api/main.py`, missing from `src/`) -/

/-- Error raised by `submit` on a malformed request (spec §4.1, §7). -/
inductive SubmitError where
  | validationError (msg : String)
  deriving DecidableEq, Repr

/-- Modelled from the spec: the backend `submit` operation of
`api/main.py` is not in `src/` (the frontend `startIngestion` is only
its caller).  Spec §4.1: `submit(tickers, filing_types, limit) → job_id`,
fails with `ValidationError` if tickers or filing_types is empty or
limit ≤ 0; otherwise it returns a job identifier. -/
def submit (tickers filingTypes : List String) (limit : Int) : Except SubmitError String :=
  if tickers.isEmpty then
    Except.error (SubmitError.validationError "tickers must be non-empty")
  else if filingTypes.isEmpty then
    Except.error (SubmitError.validationError "filing_types must be non-empty")
  else if limit ≤ 0 then
    Except.error (SubmitError.validationError "limit must be positive")
  else
    Except.ok ("job-" ++ String.intercalate "," tickers)

/-! ## Chunk store (backend `src/vector_store.py` / `src/ingest.py`,
missing from `src/`) -/

/-- Chunk record as stored (spec §3); the fields beyond the identifier
inputs are carried as payload. -/
structure Chunk where
  accession : String
  index : Nat
  ticker : String
  text : String
  deriving DecidableEq, Repr

/-- Modelled from the spec: the deterministic chunk identifier of the
missing `src/ingest.py` (README: "deterministic UUID5 IDs (accession
number + chunk index)").  The UUID5 hash is modelled by an injective
pure encoding of the same inputs. -/
def chunkId (accession : String) (index : Nat) : String :=
  accession ++ "#" ++ toString index

/-- Modelled from the spec: the upsert of the missing
`src/vector_store.py` (spec §4.5): idempotent per chunk identifier,
overwrite semantics when the identifier already exists, insert
otherwise.  The store is modelled as an association list keyed by the
chunk identifier. -/
def upsert (store : List (String × Chunk)) (id : String) (c : Chunk) :
    List (String × Chunk) :=
  if store.any (fun p => p.1 == id) then
    store.map (fun p => if p.1 == id then (id, c) else p)
  else
    store ++ [(id, c)]

/-- Modelled from the spec: the Store stage of the missing
`src/ingest.py` (spec §4.2 step 6) — upsert each passage as a Chunk
using its deterministic identifier. -/
def storeChunks (store : List (String × Chunk)) (cs : List Chunk) :
    List (String × Chunk) :=
  cs.foldl (fun s c => upsert s (chunkId c.accession c.index) c) store

/-! ## Job orchestrator (backend `api/main.py` / `src/ingest.py`,
missing from `src/`) -/

/-- Outcome of one ticker's sub-run: success with a stored chunk count,
or failure with a message (spec §4.1: per-ticker sub-runs reach a
terminal state of success or failure). -/
inductive TickerOutcome where
  | success (chunks : Nat)
  | failure (msg : String)
  deriving DecidableEq, Repr

/-- Whether a ticker's sub-run failed. -/
def TickerOutcome.isFailure : TickerOutcome → Bool
  | TickerOutcome.success _ => false
  | TickerOutcome.failure _ => true

/-- Chunks contributed by a ticker's sub-run: its stored count on
success, nothing on failure. -/
def TickerOutcome.storedChunks : TickerOutcome → Nat
  | TickerOutcome.success n => n
  | TickerOutcome.failure _ => 0

/-- Aggregate chunk count across only the tickers that succeeded
(spec §4.1). -/
def aggregateChunks (runs : List (String × TickerOutcome)) : Nat :=
  (runs.map (fun r => r.2.storedChunks)).sum

/-- Modelled from the spec: the per-ticker event trace of the missing
orchestrator (spec §4.1/§4.2): a `ticker_start` event, then
`ticker_done` with status `done` on success or status `error` on
failure (one ticker's failure is recovered locally). -/
def runTicker (t : String) (o : TickerOutcome) : List ProgressEvent :=
  match o with
  | TickerOutcome.success n =>
      [{ type := "ticker_start", ticker := some t },
       { type := "ticker_done", ticker := some t, status := some "done",
         total_chunks := some n }]
  | TickerOutcome.failure m =>
      [{ type := "ticker_start", ticker := some t },
       { type := "ticker_done", ticker := some t, status := some "error",
         message := some m }]

/-- Modelled from the spec: the whole-job event trace of the missing
orchestrator (spec §4.1): the per-ticker traces in order, then a final
`done` event whose aggregate count covers only the tickers that
succeeded.  (`Failed`/`error` termination occurs only on an
orchestration-level fault, which has no per-ticker outcome list and is
outside this trace.) -/
def runJob (runs : List (String × TickerOutcome)) : List ProgressEvent :=
  (runs.flatMap (fun r => runTicker r.1 r.2)) ++
    [{ type := "done", total_chunks := some (aggregateChunks runs) }]

/-! ## Query pipeline (backend `src/rag_pipeline.py`, missing from
`src/`) -/

/-- Candidate passage as produced by retrieval/reranking, with its
relevance score (ℚ models the float score). -/
structure Candidate where
  chunk_id : String
  ticker : String
  form_type : String
  filing_year : Nat
  sectionLabel : String
  excerpt : String
  score : ℚ
  deriving DecidableEq, Repr

/-- Citation carried by a query response (spec §3). -/
structure Citation where
  chunk_id : String
  ticker : String
  form_type : String
  filing_year : Nat
  sectionLabel : String
  excerpt : String
  score : ℚ
  deriving DecidableEq, Repr

/-- Query response (spec §3). -/
structure QueryResponse where
  answer : String
  citations : List Citation
  deriving DecidableEq, Repr

/-- Citation built from a candidate. -/
def Candidate.toCitation (c : Candidate) : Citation :=
  { chunk_id := c.chunk_id, ticker := c.ticker, form_type := c.form_type,
    filing_year := c.filing_year, sectionLabel := c.sectionLabel,
    excerpt := c.excerpt, score := c.score }

/-- Ordering by descending score used for the citation list. -/
def citationGE (a b : Citation) : Prop := b.score ≤ a.score

instance : DecidableRel citationGE := fun a b => inferInstanceAs (Decidable (b.score ≤ a.score))

/-- Modelled from the spec: citation assembly of the missing
`src/rag_pipeline.py` (spec §4.3 step 5, §3): the citations of a
response are the kept candidates ordered by descending score. -/
def assembleCitations (cands : List Candidate) : List Citation :=
  List.insertionSort citationGE (cands.map Candidate.toCitation)

/-- Typed error of the query pipeline (spec §7 taxonomy, collapsed to
the stage that failed plus its human-readable message). -/
structure QueryError where
  stage : String
  msg : String
  deriving DecidableEq, Repr

/-- Modelled from the spec: the strictly sequential query pipeline of
the missing `src/rag_pipeline.py` (spec §4.3): embed → retrieve →
rerank → generate → assemble; each stage consumes the prior stage's
output and any stage failure aborts the pipeline with that stage's
typed error, yielding no answer and no citations. -/
def runQuery
    (embed : Except QueryError (List ℚ))
    (retrieve : List ℚ → Except QueryError (List Candidate))
    (rerank : List Candidate → Except QueryError (List Candidate))
    (generate : List Candidate → Except QueryError String) :
    Except QueryError QueryResponse :=
  match embed with
  | Except.error e => Except.error e
  | Except.ok v =>
    match retrieve v with
    | Except.error e => Except.error e
    | Except.ok cands =>
      match rerank cands with
      | Except.error e => Except.error e
      | Except.ok top =>
        match generate top with
        | Except.error e => Except.error e
        | Except.ok ans =>
            Except.ok { answer := ans, citations := assembleCitations top }

/-- Chat message as rendered by `ChatWindow.tsx` (`src/unnamed/part_002`):
role, content, optional citations. -/
structure ChatMessage where
  role : String
  content : String
  citations : Option (List Citation) := none
  deriving DecidableEq, Repr

/-- Assistant message appended by the `catch` branch of `handleSend`
(`src/unnamed/part_002` lines 123-125): content `"Error: " ++ e`, no
citations field. -/
def errorChatMessage (e : String) : ChatMessage :=
  { role := "assistant", content := "Error: " ++ e }

/-! ## Faithfulness scorer (backend `src/rag_pipeline.py`, missing from
`src/`)

Spec §4.4: split the answer into sentences; tokenize each sentence (and
each supporting passage) to lowercase words with punctuation stripped;
a sentence is grounded when its maximum overlap ratio
`|sentence words ∩ passage words| / |sentence words|` (sets, duplicates
ignored) over the passages is ≥ 0.30; the score is the fraction of
grounded sentences; an answer with zero sentences scores 0.

Tokenization is modelled as splitting on non-alphanumeric characters
after lowercasing, and sentence splitting as splitting on `.`, `!`, `?`
(empty pieces dropped in both cases).  Lowercasing is applied to the
whole answer before sentence splitting; since `Char.toLower` fixes
punctuation this agrees with lowercasing per sentence. -/

/-- Word characters surviving tokenization: letters and digits
(punctuation stripped). -/
def isWordChar (c : Char) : Bool := c.isAlphanum

/-- Sentence-terminating characters. -/
def isSentenceEnd (c : Char) : Bool := c == '.' || c == '!' || c == '?'

/-- Accumulator worker for `splitOnP`: splits a character list on the
characters satisfying `p`, dropping empty pieces; `acc` holds the
current piece reversed. -/
def splitOnAux (p : Char → Bool) : List Char → List Char → List (List Char)
  | [], acc => if acc.isEmpty then [] else [acc.reverse]
  | c :: cs, acc =>
      if p c then
        if acc.isEmpty then splitOnAux p cs []
        else acc.reverse :: splitOnAux p cs []
      else splitOnAux p cs (c :: acc)

/-- Split a character list into the maximal non-empty runs of characters
not satisfying `p`. -/
def splitOnP (p : Char → Bool) (l : List Char) : List (List Char) :=
  splitOnAux p l []

/-- Lowercase a character list. -/
def lowerChars (l : List Char) : List Char := l.map Char.toLower

/-- Modelled from the spec: sentence splitting of the missing scorer —
the (lowercased) answer split at sentence-terminating punctuation. -/
def sentencesOf (answer : String) : List (List Char) :=
  splitOnP isSentenceEnd (lowerChars answer.data)

/-- Modelled from the spec: tokenization of the missing scorer — split
an (already lowercased) character list into words at non-word
characters. -/
def wordsOf (l : List Char) : List (List Char) :=
  splitOnP (fun c => !(isWordChar c)) l

/-- Words of a supporting passage: lowercase, punctuation stripped. -/
def passageWords (p : String) : List (List Char) :=
  wordsOf (lowerChars p.data)

/-- Modelled from the spec: the overlap ratio of §4.4 —
`|sentence words ∩ passage words| / |sentence words|` with duplicates
ignored (set semantics via `dedup`). -/
def overlapRatio (sent pass : List (List Char)) : ℚ :=
  let sw := sent.dedup
  ((sw.filter (fun w => decide (w ∈ pass))).length : ℚ) / (sw.length : ℚ)

/-- Modelled from the spec: whether a sentence's overlap ratio with one
passage reaches the 0.30 threshold, decided by the equivalent integer
cross-multiplication `3·|sentence words| ≤ 10·|intersection|` (the
equivalence with `(3:ℚ)/10 ≤ overlapRatio` is `groundedWith_iff`
below). -/
def groundedWith (sent pass : List (List Char)) : Bool :=
  let sw := sent.dedup
  decide (sw.length ≠ 0) &&
    decide (3 * sw.length ≤ 10 * (sw.filter (fun w => decide (w ∈ pass))).length)

/-- Modelled from the spec: a sentence is grounded when its overlap
ratio with some supporting passage is at least 0.30. -/
def grounded (sent : List (List Char)) (passages : List (List (List Char))) : Bool :=
  passages.any (fun p => groundedWith sent p)

/-- Modelled from the spec: the faithfulness score of the missing
`src/rag_pipeline.py` (spec §4.4) — the fraction of answer sentences
grounded in at least one supporting passage; zero sentences score 0. -/
def score (answer : String) (passages : List String) : ℚ :=
  let sents := sentencesOf answer
  let pws := passages.map passageWords
  if sents.isEmpty then 0
  else ((sents.countP (fun s => grounded (wordsOf s) pws) : ℚ) / (sents.length : ℚ))

/-! ## Helper lemmas -/

/-- Splitting distributes over an occurrence of a separator character:
the pieces of `a ++ d :: b` are the pieces of `a` (with the pending
accumulator) followed by the pieces of `b`. -/
theorem splitOnAux_append_sep (p : Char → Bool) {d : Char} (hd : p d = true)
    (a : List Char) :
    ∀ acc b, splitOnAux p (a ++ d :: b) acc = splitOnAux p a acc ++ splitOnP p b := by
  induction a with
  | nil =>
      intro acc b
      by_cases h : acc.isEmpty <;> simp [splitOnAux, hd, splitOnP, h]
  | cons c a2 ih =>
      intro acc b
      by_cases hc : p c
      · by_cases h : acc.isEmpty <;> simp [splitOnAux, hc, h, ih]
      · simp [splitOnAux, hc, ih]

/-- Every piece produced by the splitter sits in the input list between
a separator (or the start) and a separator (or the end). -/
theorem mem_splitOnAux_decomp (p : Char → Bool) :
    ∀ (l acc x : List Char), x ∈ splitOnAux p l acc →
      ∃ a b, acc.reverse ++ l = a ++ x ++ b ∧
        (a = [] ∨ ∃ a2 e, a = a2 ++ [e] ∧ p e = true) ∧
        (b = [] ∨ ∃ e b2, b = e :: b2 ∧ p e = true) := by
  intro l
  induction l with
  | nil =>
      intro acc x hx
      by_cases h : acc.isEmpty
      · simp [splitOnAux, h] at hx
      · simp [splitOnAux, h] at hx
        exact ⟨[], [], by simp [hx], Or.inl rfl, Or.inl rfl⟩
  | cons c cs ih =>
      intro acc x hx
      by_cases hc : p c
      · have hrest : x = acc.reverse ∧ acc.isEmpty = false ∨ x ∈ splitOnAux p cs [] := by
          by_cases h : acc.isEmpty
          · simp [splitOnAux, hc, h] at hx
            exact Or.inr hx
          · simp [splitOnAux, hc, h] at hx
            rcases hx with hx | hx
            · exact Or.inl ⟨hx, by simpa using h⟩
            · exact Or.inr hx
        rcases hrest with ⟨rfl, _⟩ | hx2
        · exact ⟨[], c :: cs, by simp, Or.inl rfl, Or.inr ⟨c, cs, rfl, hc⟩⟩
        · obtain ⟨a, b, heq, ha, hb⟩ := ih [] x hx2
          simp only [List.reverse_nil, List.nil_append] at heq
          refine ⟨acc.reverse ++ c :: a, b, ?_, ?_, hb⟩
          · simp [heq]
          · rcases ha with rfl | ⟨a2, e, rfl, he⟩
            · exact Or.inr ⟨acc.reverse, c, by simp, hc⟩
            · exact Or.inr ⟨acc.reverse ++ c :: a2, e, by simp, he⟩
      · have hx2 : x ∈ splitOnAux p cs (c :: acc) := by
          simpa [splitOnAux, hc] using hx
        obtain ⟨a, b, heq, ha, hb⟩ := ih (c :: acc) x hx2
        refine ⟨a, b, ?_, ha, hb⟩
        simpa using heq

/-- If the piece delimiters (`E`) are a subset of the word separators
(`S`), then every word of a piece of `l` is a word of `l` itself. -/
theorem mem_splitOnP_trans {E S : Char → Bool}
    (hES : ∀ c, E c = true → S c = true) {l x w : List Char}
    (hx : x ∈ splitOnP E l) (hw : w ∈ splitOnP S x) : w ∈ splitOnP S l := by
  obtain ⟨a, b, heq, ha, hb⟩ := mem_splitOnAux_decomp E l [] x hx
  simp only [List.reverse_nil, List.nil_append] at heq
  have hxb : w ∈ splitOnP S (x ++ b) := by
    rcases hb with rfl | ⟨e, b2, rfl, he⟩
    · simpa using hw
    · rw [splitOnP, splitOnAux_append_sep S (hES e he) x]
      exact List.mem_append_left _ hw
  subst heq
  rcases ha with rfl | ⟨a2, e, rfl, he⟩
  · simpa using hxb
  · rw [show (a2 ++ [e]) ++ x ++ b = a2 ++ e :: (x ++ b) by simp]
    rw [splitOnP, splitOnAux_append_sep S (hES e he) a2]
    exact List.mem_append_right _ hxb

/-- Sentence-ending characters are not word characters. -/
theorem sentenceEnd_not_word {c : Char} (h : isSentenceEnd c = true) :
    (!(isWordChar c)) = true := by
  simp only [isSentenceEnd, Bool.or_eq_true, beq_iff_eq] at h
  rcases h with (rfl | rfl) | rfl <;> decide

/-- The cross-multiplied threshold test agrees with the rational
overlap-ratio test of spec §4.4. -/
theorem groundedWith_iff (sent pass : List (List Char)) :
    groundedWith sent pass = true ↔ (3 : ℚ) / 10 ≤ overlapRatio sent pass := by
  unfold groundedWith overlapRatio
  rcases Nat.eq_zero_or_pos sent.dedup.length with h0 | hpos
  · simp [h0]
  · have hne : sent.dedup.length ≠ 0 := Nat.pos_iff_ne_zero.mp hpos
    have hq : (0 : ℚ) < (sent.dedup.length : ℚ) := by exact_mod_cast hpos
    simp only [hne, not_false_eq_true, decide_eq_true_eq, Bool.and_eq_true, decide_eq_true_iff,
      true_and]
    rw [div_le_div_iff₀ (by norm_num) hq]
    constructor
    · intro h
      have h3 : (3 : ℚ) * (sent.dedup.length : ℚ) ≤
          10 * ((sent.dedup.filter (fun w => decide (w ∈ pass))).length : ℚ) := by
        exact_mod_cast h.2
      linarith
    · intro h
      have h3 : (3 : ℚ) * (sent.dedup.length : ℚ) ≤
          10 * ((sent.dedup.filter (fun w => decide (w ∈ pass))).length : ℚ) := by
        linarith
      exact ⟨hne, by exact_mod_cast h3⟩

/-- A closed consumer ignores every further item. -/
theorem foldl_consumerStep_closed (items : List ConsumerItem) :
    ∀ ds, items.foldl consumerStep { isOpen := false, delivered := ds } =
      { isOpen := false, delivered := ds } := by
  induction items with
  | nil => intro ds; rfl
  | cons it its ih => intro ds; simp [List.foldl_cons, consumerStep, ih]

/-- Deliveries of the consumer over a pure message stream: the events up
to and including the first terminal one, appended to what was already
delivered. -/
theorem foldl_consumerStep_msgs (evs : List ProgressEvent) :
    ∀ ds, ((evs.map ConsumerItem.msg).foldl consumerStep
        { isOpen := true, delivered := ds }).delivered = ds ++ consume evs := by
  induction evs with
  | nil => intro ds; simp [consume]
  | cons e es ih =>
      intro ds
      by_cases he : isTerminal e
      · simp [List.foldl_cons, consumerStep, he, consume,
          foldl_consumerStep_closed]
      · simp [List.foldl_cons, consumerStep, he, consume, ih]

/-- The delivered events are exactly the closed form `consume`. -/
theorem deliveredEvents_eq_consume (evs : List ProgressEvent) :
    deliveredEvents evs = consume evs := by
  simpa [deliveredEvents, runConsumer] using foldl_consumerStep_msgs evs []

/-- When the stream contains a terminal event, `consume` is non-empty,
ends in a terminal event, and contains no terminal event earlier. -/
theorem consume_terminates (evs : List ProgressEvent)
    (h : ∃ e ∈ evs, isTerminal e = true) :
    consume evs ≠ [] ∧
    (∃ last, (consume evs).getLast? = some last ∧ isTerminal last = true) ∧
    ∀ e ∈ (consume evs).dropLast, isTerminal e = false := by
  induction evs with
  | nil => simp at h
  | cons e es ih =>
      by_cases he : isTerminal e
      · refine ⟨by simp [consume, he], ⟨e, by simp [consume, he], he⟩, ?_⟩
        simp [consume, he]
      · obtain ⟨x, hx, hxt⟩ := h
        rcases List.mem_cons.mp hx with rfl | hx2
        · exact absurd hxt he
        · obtain ⟨hne, ⟨last, hlast, hlastt⟩, hpre⟩ := ih ⟨x, hx2, hxt⟩
          refine ⟨by simp [consume, he], ⟨last, ?_, hlastt⟩, ?_⟩
          · rw [show consume (e :: es) = e :: consume es by simp [consume, he]]
            exact Option.mem_def.mp (List.mem_getLast?_cons (Option.mem_def.mpr hlast))
          · rw [show consume (e :: es) = e :: consume es by simp [consume, he]]
            rw [List.dropLast_cons_of_ne_nil hne]
            intro y hy
            rcases List.mem_cons.mp hy with rfl | hy2
            · simpa using he
            · exact hpre y hy2

/-- Keys of the store after an upsert: unchanged when the identifier is
already present, extended by it otherwise. -/
theorem upsert_keys (s : List (String × Chunk)) (id : String) (c : Chunk) :
    (upsert s id c).map Prod.fst =
      if s.any (fun p => p.1 == id) then s.map Prod.fst
      else s.map Prod.fst ++ [id] := by
  unfold upsert
  by_cases h : s.any (fun p => p.1 == id)
  · simp only [h, if_true, List.map_map]
    congr 1
    funext p
    by_cases hp : p.1 == id
    · simp [hp, Function.comp]
      exact (beq_iff_eq.mp hp).symm
    · simp [hp, Function.comp]
  · simp [h]

/-- Size of the store after an upsert: unchanged when the identifier is
already present (overwrite), one larger otherwise (insert). -/
theorem upsert_length (s : List (String × Chunk)) (id : String) (c : Chunk) :
    (upsert s id c).length =
      if s.any (fun p => p.1 == id) then s.length else s.length + 1 := by
  unfold upsert
  by_cases h : s.any (fun p => p.1 == id) <;> simp [h]

/-- Presence of an identifier among the store's keys, as the Boolean
scan used by `upsert`. -/
theorem any_key_iff (s : List (String × Chunk)) (id : String) :
    s.any (fun p => p.1 == id) = true ↔ id ∈ s.map Prod.fst := by
  rw [List.any_eq_true]
  constructor
  · rintro ⟨p, hp, hpe⟩
    exact List.mem_map.mpr ⟨p, hp, beq_iff_eq.mp hpe⟩
  · intro h
    obtain ⟨p, hp, rfl⟩ := List.mem_map.mp h
    exact ⟨p, hp, beq_iff_eq.mpr rfl⟩

/-- Storing chunks only ever grows the key set. -/
theorem keys_subset_storeChunks (cs : List Chunk) :
    ∀ s : List (String × Chunk), ∀ k ∈ s.map Prod.fst,
      k ∈ (storeChunks s cs).map Prod.fst := by
  induction cs with
  | nil => intro s k hk; simpa [storeChunks] using hk
  | cons c cs2 ih =>
      intro s k hk
      rw [show storeChunks s (c :: cs2) =
        storeChunks (upsert s (chunkId c.accession c.index) c) cs2 from rfl]
      apply ih
      rw [upsert_keys]
      by_cases h : s.any (fun p => p.1 == chunkId c.accession c.index) <;>
        simp [h, hk]

/-- After a run of the Store stage, the identifier of every stored chunk
is among the store's keys. -/
theorem chunkId_mem_storeChunks (cs : List Chunk) :
    ∀ s : List (String × Chunk), ∀ c ∈ cs,
      chunkId c.accession c.index ∈ (storeChunks s cs).map Prod.fst := by
  induction cs with
  | nil => intro s c hc; simp at hc
  | cons c0 cs2 ih =>
      intro s c hc
      rcases List.mem_cons.mp hc with rfl | hc2
      · rw [show storeChunks s (c :: cs2) =
          storeChunks (upsert s (chunkId c.accession c.index) c) cs2 from rfl]
        apply keys_subset_storeChunks
        rw [upsert_keys]
        by_cases h : s.any (fun p => p.1 == chunkId c.accession c.index)
        · simp only [h, if_true]
          exact (any_key_iff s _).mp h
        · simp [h]
      · exact ih _ c hc2

/-- Re-storing chunks whose identifiers are already all present neither
changes the size of the store nor its key set. -/
theorem storeChunks_no_growth (cs : List Chunk) :
    ∀ s : List (String × Chunk),
      (∀ c ∈ cs, chunkId c.accession c.index ∈ s.map Prod.fst) →
      (storeChunks s cs).length = s.length ∧
        (storeChunks s cs).map Prod.fst = s.map Prod.fst := by
  induction cs with
  | nil => intro s _; exact ⟨rfl, rfl⟩
  | cons c cs2 ih =>
      intro s hmem
      have hany : s.any (fun p => p.1 == chunkId c.accession c.index) = true :=
        (any_key_iff s _).mpr (hmem c (List.mem_cons_self c cs2))
      have hkeys : (upsert s (chunkId c.accession c.index) c).map Prod.fst =
          s.map Prod.fst := by rw [upsert_keys, if_pos hany]
      have hlen : (upsert s (chunkId c.accession c.index) c).length = s.length := by
        rw [upsert_length, if_pos hany]
      have hrest : ∀ c2 ∈ cs2, chunkId c2.accession c2.index ∈
          (upsert s (chunkId c.accession c.index) c).map Prod.fst := by
        intro c2 hc2
        rw [hkeys]
        exact hmem c2 (List.mem_cons_of_mem c hc2)
      obtain ⟨h1, h2⟩ := ih _ hrest
      refine ⟨?_, ?_⟩
      · rw [show storeChunks s (c :: cs2) =
          storeChunks (upsert s (chunkId c.accession c.index) c) cs2 from rfl,
          h1, hlen]
      · rw [show storeChunks s (c :: cs2) =
          storeChunks (upsert s (chunkId c.accession c.index) c) cs2 from rfl,
          h2, hkeys]

/-- The aggregate chunk count sums exactly the successful tickers'
counts (failed tickers contribute nothing). -/
theorem aggregateChunks_eq_successes (runs : List (String × TickerOutcome)) :
    aggregateChunks runs =
      ((runs.filter (fun r => !(r.2.isFailure))).map
        (fun r => r.2.storedChunks)).sum := by
  induction runs with
  | nil => rfl
  | cons r rs ih =>
      cases hr : r.2 with
      | success n =>
          simp [aggregateChunks, List.filter_cons, hr, TickerOutcome.isFailure,
            TickerOutcome.storedChunks] at ih ⊢
          omega
      | failure m =>
          simp [aggregateChunks, List.filter_cons, hr, TickerOutcome.isFailure,
            TickerOutcome.storedChunks] at ih ⊢
          omega

/-- Inversion of a successful query run: every stage succeeded, the
answer is the generated text, and the citations are the assembled,
score-ordered list over the reranked passages. -/
theorem runQuery_ok
    (embed : Except QueryError (List ℚ))
    (retrieve : List ℚ → Except QueryError (List Candidate))
    (rerank : List Candidate → Except QueryError (List Candidate))
    (generate : List Candidate → Except QueryError String)
    (resp : QueryResponse)
    (h : runQuery embed retrieve rerank generate = Except.ok resp) :
    ∃ v cands top, embed = Except.ok v ∧ retrieve v = Except.ok cands ∧
      rerank cands = Except.ok top ∧ generate top = Except.ok resp.answer ∧
      resp.citations = assembleCitations top := by
  cases he : embed with
  | error e => simp [runQuery, he] at h
  | ok v =>
      cases hrt : retrieve v with
      | error e => simp [runQuery, he, hrt] at h
      | ok cands =>
          cases hrr : rerank cands with
          | error e => simp [runQuery, he, hrt, hrr] at h
          | ok top =>
              cases hg : generate top with
              | error e => simp [runQuery, he, hrt, hrr, hg] at h
              | ok ans =>
                  simp only [runQuery, he, hrt, hrr, hg, Except.ok.injEq] at h
                  exact ⟨v, cands, top, rfl, hrt, hrr, by rw [hg, ← h], by rw [← h]⟩

/-- Both closing paths of the consumer (`onerror` and the function
returned to the caller) behave identically: the source is closed and
the deliveries so far are kept. -/
theorem consumerStep_close (st : ConsumerState) :
    consumerStep st ConsumerItem.transportError =
      { isOpen := false, delivered := st.delivered } ∧
    consumerStep st ConsumerItem.callerClose =
      { isOpen := false, delivered := st.delivered } := by
  cases st with
  | mk o ds => cases o <;> simp [consumerStep]

/-- Once a closing item occurs, the consumer's deliveries are frozen at
what was delivered before it, whatever arrives afterwards. -/
theorem runConsumer_append_close (pre post : List ConsumerItem)
    (it : ConsumerItem)
    (hit : it = ConsumerItem.transportError ∨ it = ConsumerItem.callerClose) :
    runConsumer (pre ++ it :: post) =
      { isOpen := false, delivered := (runConsumer pre).delivered } := by
  rw [runConsumer, List.foldl_append, List.foldl_cons]
  rcases hit with rfl | rfl
  · rw [(consumerStep_close _).1, foldl_consumerStep_closed]
    rfl
  · rw [(consumerStep_close _).2, foldl_consumerStep_closed]
    rfl

/-! ## Claim theorems -/

/-- C1 (amended): for every answer and passage set the faithfulness
score lies in [0,1]; an answer with zero sentences scores exactly 0; and
an answer identical to one of its supporting passages scores exactly 1
provided it has at least one sentence and every one of its sentences
contains at least one word.  (The unamended "identical scores 1" clause
fails for answers whose sentences carry no words, e.g. the empty
answer — see the counterexample.) -/
theorem faithfulness_score_props (answer : String) (passages : List String) :
    (0 ≤ score answer passages ∧ score answer passages ≤ 1) ∧
    (sentencesOf answer = [] → score answer passages = 0) ∧
    (answer ∈ passages → sentencesOf answer ≠ [] →
      (∀ s ∈ sentencesOf answer, wordsOf s ≠ []) →
      score answer passages = 1) := by
  refine ⟨?_, ?_, ?_⟩
  · by_cases h : (sentencesOf answer).isEmpty
    · rw [score, if_pos h]
      norm_num
    · have hne : sentencesOf answer ≠ [] := by
        simpa [List.isEmpty_iff] using h
      have hpos : (0 : ℚ) < ((sentencesOf answer).length : ℚ) := by
        exact_mod_cast List.length_pos.mpr hne
      rw [score, if_neg h]
      constructor
      · exact div_nonneg (Nat.cast_nonneg _) (Nat.cast_nonneg _)
      · rw [div_le_one hpos]
        exact_mod_cast List.countP_le_length _
  · intro h
    simp [score, h]
  · intro hmem hne hwords
    have hall : ∀ s ∈ sentencesOf answer,
        grounded (wordsOf s) (passages.map passageWords) = true := by
      intro s hs
      apply List.any_eq_true.mpr
      refine ⟨passageWords answer, List.mem_map_of_mem _ hmem, ?_⟩
      have hsub : ∀ w ∈ (wordsOf s).dedup, w ∈ passageWords answer := by
        intro w hw
        exact mem_splitOnP_trans (fun c hc => sentenceEnd_not_word hc) hs
          (List.mem_dedup.mp hw)
      have hfilter : (wordsOf s).dedup.filter
            (fun w => decide (w ∈ passageWords answer)) = (wordsOf s).dedup :=
        List.filter_eq_self.mpr (fun w hw => decide_eq_true (hsub w hw))
      have hlen : (wordsOf s).dedup.length ≠ 0 := by
        simpa [List.dedup_eq_nil] using hwords s hs
      simp only [groundedWith, hfilter, Bool.and_eq_true, decide_eq_true_eq]
      exact ⟨hlen, by omega⟩
    have hcount : (sentencesOf answer).countP
        (fun s => grounded (wordsOf s) (passages.map passageWords)) =
        (sentencesOf answer).length := List.countP_eq_length.mpr hall
    have hie : (sentencesOf answer).isEmpty = false := by
      simpa [List.isEmpty_iff] using hne
    rw [score, if_neg (by simp [hie]), hcount]
    exact div_self (by exact_mod_cast List.length_pos.mpr hne |>.ne')

/-- C1 counterexample: the empty answer is identical to a supporting
passage (the empty passage) yet scores 0, not 1, because it has zero
sentences — the claim's "identical scores exactly 1" clause conflicts
with its own "zero sentences score 0" clause at this input. -/
theorem faithfulness_identical_cex :
    ("" ∈ ([""] : List String)) ∧ score "" [""] ≠ 1 := by
  refine ⟨by simp, ?_⟩
  rw [show score "" [""] = 0 from rfl]
  norm_num

/-- C1 witness: a one-sentence answer identical to its passage scores 1,
and an answer with no sentences scores 0. -/
theorem faithfulness_score_props_witness :
    score "hello world" ["hello world"] = 1 ∧ score "" ["x"] = 0 :=
  ⟨(faithfulness_score_props "hello world" ["hello world"]).2.2 (by decide)
      (by decide) (by decide),
   (faithfulness_score_props "" ["x"]).2.1 (by decide)⟩

/-- C2: storage is idempotent — running the Store stage a second time
over the same chunks leaves the stored chunk count unchanged, and an
upsert whose identifier is already present overwrites (same store
size) rather than duplicates. -/
theorem ingestion_store_idempotent (s : List (String × Chunk)) (cs : List Chunk) :
    (storeChunks (storeChunks s cs) cs).length = (storeChunks s cs).length ∧
    (∀ id c, id ∈ s.map Prod.fst → (upsert s id c).length = s.length) := by
  constructor
  · exact (storeChunks_no_growth cs (storeChunks s cs)
      (chunkId_mem_storeChunks cs s)).1
  · intro id c h
    rw [upsert_length, if_pos ((any_key_iff s id).mpr h)]

/-- C2 witness: overwriting the single stored chunk keeps the store at
size one. -/
theorem ingestion_store_idempotent_witness :
    (upsert [("acc#0", (⟨"acc", 0, "AAPL", "old"⟩ : Chunk))] "acc#0"
      (⟨"acc", 0, "AAPL", "new"⟩ : Chunk)).length =
    [("acc#0", (⟨"acc", 0, "AAPL", "old"⟩ : Chunk))].length :=
  (ingestion_store_idempotent [("acc#0", (⟨"acc", 0, "AAPL", "old"⟩ : Chunk))]
      []).2 "acc#0" (⟨"acc", 0, "AAPL", "new"⟩ : Chunk) (by decide)

/-- C3: when the producer's stream contains a `done` or `error` event,
the sequence delivered to the consumer is non-empty and finite, its
final delivered event is of type `done` or `error`, and no event of any
type is delivered after it (every earlier delivered event is
non-terminal); the consumer stops exactly there. -/
theorem stream_consumer_terminal (evs : List ProgressEvent)
    (h : ∃ e ∈ evs, isTerminal e = true) :
    deliveredEvents evs ≠ [] ∧
    (∃ last, (deliveredEvents evs).getLast? = some last ∧
      isTerminal last = true) ∧
    (∀ e ∈ (deliveredEvents evs).dropLast, isTerminal e = false) := by
  rw [deliveredEvents_eq_consume]
  exact consume_terminates evs h

/-- C3 witness: a two-event stream ending in `done` is delivered whole
and stops at the `done` event. -/
theorem stream_consumer_terminal_witness :
    deliveredEvents [{ type := "step" }, { type := "done" }] ≠ [] ∧
    (∃ last, (deliveredEvents [{ type := "step" }, { type := "done" }]).getLast? =
      some last ∧ isTerminal last = true) ∧
    (∀ e ∈ (deliveredEvents [{ type := "step" }, { type := "done" }]).dropLast,
      isTerminal e = false) :=
  stream_consumer_terminal [{ type := "step" }, { type := "done" }]
    ⟨{ type := "done" }, by decide, by decide⟩

/-- C4: a job in which some tickers fail and some succeed still
terminates with a `done` event (its last event is `done`, not `error`),
the `done` event's aggregate count sums only the succeeding tickers'
chunks, and each failing ticker gets a `ticker_done` event with status
`error`. -/
theorem partial_failure_isolation (runs : List (String × TickerOutcome))
    (_hfail : ∃ r ∈ runs, r.2.isFailure = true)
    (_hsucc : ∃ r ∈ runs, r.2.isFailure = false) :
    (runJob runs).getLast? =
      some { type := "done", total_chunks := some (aggregateChunks runs) } ∧
    aggregateChunks runs =
      ((runs.filter (fun r => !(r.2.isFailure))).map
        (fun r => r.2.storedChunks)).sum ∧
    ∀ t m, (t, TickerOutcome.failure m) ∈ runs →
      { type := "ticker_done", ticker := some t, status := some "error",
        message := some m } ∈ runJob runs := by
  refine ⟨?_, aggregateChunks_eq_successes runs, ?_⟩
  · exact List.getLast?_concat _
  · intro t m hmem
    apply List.mem_append_left
    exact List.mem_flatMap.mpr ⟨(t, TickerOutcome.failure m), hmem,
      by simp [runTicker]⟩

/-- C4 witness: with AAPL succeeding (5 chunks) and BADTICKER failing at
Download, the job ends in a `done` event counting only AAPL's chunks and
emits `ticker_done(status=error)` for BADTICKER. -/
theorem partial_failure_isolation_witness :
    (runJob [("AAPL", TickerOutcome.success 5),
      ("BADTICKER", TickerOutcome.failure "download failed")]).getLast? =
      some { type := "done", total_chunks := some (aggregateChunks
        [("AAPL", TickerOutcome.success 5),
         ("BADTICKER", TickerOutcome.failure "download failed")]) } ∧
    aggregateChunks [("AAPL", TickerOutcome.success 5),
      ("BADTICKER", TickerOutcome.failure "download failed")] =
      (([("AAPL", TickerOutcome.success 5),
        ("BADTICKER", TickerOutcome.failure "download failed")].filter
          (fun r => !(r.2.isFailure))).map (fun r => r.2.storedChunks)).sum ∧
    ∀ t m, (t, TickerOutcome.failure m) ∈
        [("AAPL", TickerOutcome.success 5),
         ("BADTICKER", TickerOutcome.failure "download failed")] →
      { type := "ticker_done", ticker := some t, status := some "error",
        message := some m } ∈ runJob [("AAPL", TickerOutcome.success 5),
          ("BADTICKER", TickerOutcome.failure "download failed")] :=
  partial_failure_isolation
    [("AAPL", TickerOutcome.success 5),
     ("BADTICKER", TickerOutcome.failure "download failed")]
    ⟨("BADTICKER", TickerOutcome.failure "download failed"), by decide, by decide⟩
    ⟨("AAPL", TickerOutcome.success 5), by decide, by decide⟩

/-- C5 (amended): the `type` tag of a `ProgressEvent` ranges over the
closed set of exactly ten variants — the claimed eight plus `system` and
`__end__` — and the declared optional fields are step, ticker, status,
message and total_chunks, though the type's index signature admits
arbitrary further properties. -/
theorem progress_event_types (s : String) :
    validEventType s = true ↔
      s ∈ ["phase", "step", "ticker_start", "ticker_done", "system", "warning",
           "done", "error", "heartbeat", "__end__"] := by
  simp only [validEventType, Bool.or_eq_true, beq_iff_eq, List.mem_cons,
    List.not_mem_nil, or_false]
  tauto

/-- C5 counterexample: `"system"` is a type tag the source's
`ProgressEvent` union admits but which lies outside the claimed
eight-variant set. -/
theorem progress_event_types_cex :
    validEventType "system" = true ∧
      "system" ∉ (["phase", "step", "ticker_start", "ticker_done", "warning",
        "heartbeat", "done", "error"] : List String) := by
  decide

/-- C6: `submit` fails with a `ValidationError` exactly when the ticker
set is empty, the filing-type set is empty, or the limit is
non-positive; on every other input it returns a job identifier. -/
theorem submit_validation (tickers filingTypes : List String) (limit : Int) :
    ((∃ m, submit tickers filingTypes limit =
        Except.error (SubmitError.validationError m)) ↔
      (tickers = [] ∨ filingTypes = [] ∨ limit ≤ 0)) ∧
    ((∃ jobId, submit tickers filingTypes limit = Except.ok jobId) ↔
      ¬(tickers = [] ∨ filingTypes = [] ∨ limit ≤ 0)) := by
  by_cases h1 : tickers = [] <;> by_cases h2 : filingTypes = [] <;>
    by_cases h3 : limit ≤ 0 <;>
    simp [submit, List.isEmpty_iff, h1, h2, h3]

/-- C6 witness: the valid request of `IngestionMonitor.handleStart`
(`["AAPL"]`, `["10-K"]`, limit 2) yields a job identifier, and the empty
ticker set is rejected with a `ValidationError`. -/
theorem submit_validation_witness :
    (∃ jobId, submit ["AAPL"] ["10-K"] 2 = Except.ok jobId) ∧
    (∃ m, submit [] ["10-K"] 2 =
      Except.error (SubmitError.validationError m)) :=
  ⟨(submit_validation ["AAPL"] ["10-K"] 2).2.mpr (by simp),
   (submit_validation [] ["10-K"] 2).1.mpr (by simp)⟩

/-- C7: a failure of any query-pipeline stage yields a single typed
error and nothing else — an `ok` response exists only when every stage
succeeded (so there is never a partial answer with partial citations);
an embed failure surfaces directly as that typed error; and the chat
client renders a failure as a message carrying only the human-readable
error text, with no citations. -/
theorem query_pipeline_fails_closed
    (embed : Except QueryError (List ℚ))
    (retrieve : List ℚ → Except QueryError (List Candidate))
    (rerank : List Candidate → Except QueryError (List Candidate))
    (generate : List Candidate → Except QueryError String) :
    (∀ resp, runQuery embed retrieve rerank generate = Except.ok resp →
      ∃ v cands top, embed = Except.ok v ∧ retrieve v = Except.ok cands ∧
        rerank cands = Except.ok top ∧ generate top = Except.ok resp.answer ∧
        resp.citations = assembleCitations top) ∧
    (∀ m, embed = Except.error m →
      runQuery embed retrieve rerank generate = Except.error m) ∧
    (∀ m, (errorChatMessage m).citations = none ∧
      (errorChatMessage m).content = "Error: " ++ m) := by
  refine ⟨?_, ?_, ?_⟩
  · intro resp h
    exact runQuery_ok embed retrieve rerank generate resp h
  · intro m hm
    simp [runQuery, hm]
  · intro m
    exact ⟨rfl, rfl⟩

/-- C7 witness: an embed failure propagates as the pipeline's single
typed error. -/
theorem query_pipeline_fails_closed_witness :
    runQuery (Except.error ⟨"embed", "embedding service unavailable"⟩)
      (fun _ => Except.ok []) (fun c => Except.ok c)
      (fun _ => Except.ok "answer") =
    Except.error ⟨"embed", "embedding service unavailable"⟩ :=
  (query_pipeline_fails_closed
    (Except.error ⟨"embed", "embedding service unavailable"⟩)
    (fun _ => Except.ok []) (fun c => Except.ok c)
    (fun _ => Except.ok "answer")).2.1 _ rfl

/-- C8: the citation list of every successful query response is sorted
by descending score — scores are non-increasing in list order. -/
theorem citation_descending
    (embed : Except QueryError (List ℚ))
    (retrieve : List ℚ → Except QueryError (List Candidate))
    (rerank : List Candidate → Except QueryError (List Candidate))
    (generate : List Candidate → Except QueryError String)
    (resp : QueryResponse)
    (h : runQuery embed retrieve rerank generate = Except.ok resp) :
    List.Pairwise (fun a b => b.score ≤ a.score) resp.citations := by
  obtain ⟨v, cands, top, _, _, _, _, hcit⟩ :=
    runQuery_ok embed retrieve rerank generate resp h
  rw [hcit]
  haveI : IsTotal Citation citationGE := ⟨fun a b => le_total b.score a.score⟩
  haveI : IsTrans Citation citationGE :=
    ⟨fun a b c h1 h2 => le_trans h2 h1⟩
  exact List.sorted_insertionSort citationGE (top.map Candidate.toCitation)

/-- C8 witness: a concrete two-candidate response comes out with
non-increasing citation scores. -/
theorem citation_descending_witness :
    List.Pairwise (fun a b => b.score ≤ a.score)
      (QueryResponse.mk "ans" (assembleCitations
        [(⟨"c1", "AAPL", "10-K", 2023, "Risk Factors", "low", 1⟩ : Candidate),
         (⟨"c2", "AAPL", "10-K", 2024, "MD&A", "high", 2⟩ : Candidate)])).citations :=
  citation_descending (Except.ok [])
    (fun _ => Except.ok
      [(⟨"c1", "AAPL", "10-K", 2023, "Risk Factors", "low", 1⟩ : Candidate),
       (⟨"c2", "AAPL", "10-K", 2024, "MD&A", "high", 2⟩ : Candidate)])
    (fun c => Except.ok c) (fun _ => Except.ok "ans")
    (QueryResponse.mk "ans" (assembleCitations
      [(⟨"c1", "AAPL", "10-K", 2023, "Risk Factors", "low", 1⟩ : Candidate),
       (⟨"c2", "AAPL", "10-K", 2024, "MD&A", "high", 2⟩ : Candidate)])) rfl

/-- C9: each API client operation returns the parsed JSON body exactly
when the response is ok, and throws an `Error` carrying the raw body
text in every other case; no operation returns a value on a non-ok
response. -/
theorem api_client_response_contract {α : Type} (parse : String → α)
    (res : HttpResponse) :
    (res.ok = true →
      startIngestion parse res = Except.ok (parse res.body) ∧
      queryRAG parse res = Except.ok (parse res.body) ∧
      getMetrics parse res = Except.ok (parse res.body)) ∧
    (res.ok = false →
      startIngestion parse res = Except.error res.body ∧
      queryRAG parse res = Except.error res.body ∧
      getMetrics parse res = Except.error res.body) := by
  constructor <;> intro h <;>
    simp [startIngestion, queryRAG, getMetrics, h]

/-- C9 witness: an ok response parses, a non-ok response throws its body
text. -/
theorem api_client_response_contract_witness :
    startIngestion id ⟨true, "parsed-body"⟩ = Except.ok "parsed-body" ∧
    queryRAG id ⟨false, "Internal Server Error"⟩ =
      Except.error "Internal Server Error" :=
  ⟨((api_client_response_contract id ⟨true, "parsed-body"⟩).1 rfl).1,
   ((api_client_response_contract id ⟨false, "Internal Server Error"⟩).2
     rfl).2.1⟩

/-- C10: after a transport error (`onerror`) or a call of the function
`streamIngestionProgress` returns, the `EventSource` is closed and the
per-event callback is never invoked again — the deliveries are frozen at
what was delivered before the closing item, whatever arrives
afterwards. -/
theorem stream_close_no_redelivery (pre post : List ConsumerItem) :
    ((runConsumer (pre ++ ConsumerItem.transportError :: post)).delivered =
        (runConsumer pre).delivered ∧
      (runConsumer (pre ++ ConsumerItem.transportError :: post)).isOpen =
        false) ∧
    ((runConsumer (pre ++ ConsumerItem.callerClose :: post)).delivered =
        (runConsumer pre).delivered ∧
      (runConsumer (pre ++ ConsumerItem.callerClose :: post)).isOpen =
        false) := by
  rw [runConsumer_append_close pre post ConsumerItem.transportError
    (Or.inl rfl)]
  rw [runConsumer_append_close pre post ConsumerItem.callerClose
    (Or.inr rfl)]
  exact ⟨⟨rfl, rfl⟩, ⟨rfl, rfl⟩⟩

end FinRag
